import Mathlib

/- Verification of the pennylane-lightning gate-application engine.

   The C++ sources embedded here are Gates.cpp (gate catalogue, specialized
   kernels, generic gather/apply/scatter kernel, dispatch table) and the
   declarations of Apply.hpp (index generator and driver).  The state vector
   of complex double amplitudes is modelled as a total function from natural
   positions to exact complex numbers, and each kernel is translated
   statement by statement: an assignment to one amplitude becomes a pointwise
   functional update. -/

/-- Quantum state buffer: amplitude at every position.  CplxType from the
source is std::complex of double, idealized as the exact complex numbers. -/
def QState : Type := ℕ → ℂ

/-- Pointwise update of a state buffer: the effect of one C++ assignment
statement of the form state[i] = z. -/
def write (s : QState) (i : ℕ) (z : ℂ) : QState :=
  fun p => if p = i then z else s p

/-- Modelled from the spec: the constant IMAG declared in the missing
Util.hpp header; the spec catalogue table describes PauliY as scale-and-swap
with plus or minus i and S as multiplication by i. -/
noncomputable def IMAG : ℂ := Complex.I

/-- Modelled from the spec: the constant SQRT2INV declared in the missing
Util.hpp header; the spec catalogue table describes Hadamard as a 2x2 mix
with the inverse square root of two. -/
noncomputable def SQRT2INV : ℂ := (↑(Real.sqrt 2))⁻¹

/-- Static scalar of TGate from Gates.cpp: pow(M_E, CplxType(0, M_PI / 4)). -/
noncomputable def TGate.shift : ℂ := Complex.exp ⟨0, Real.pi / 4⟩

/-- Tagged-variant representation of a constructed gate instance.  Each
constructor corresponds to one gate class of Gates.cpp and carries the
precomputed scalars stored by that class's constructor. -/
inductive PGate where
  | XGate
  | YGate
  | ZGate
  | HadamardGate
  | SGate
  | TGate
  | RotationXGate (c js : ℂ)
  | RotationYGate (c s : ℂ)
  | RotationZGate (first second : ℂ)
  | PhaseShiftGate (shift : ℂ)
  | GeneralRotationGate (r1 r2 r3 r4 : ℂ)
  | CNOTGate
  | SWAPGate
  | CZGate
  | CRotationXGate (c js : ℂ)
  | CRotationYGate (c s : ℂ)
  | CRotationZGate (first second : ℂ)
  | CGeneralRotationGate (r1 r2 r3 r4 : ℂ)
  | ToffoliGate
  | CSWAPGate

/-- Number of qubits the gate acts on: the numQubits argument passed to the
AbstractGate constructor through SingleQubitGate, TwoQubitGate or
ThreeQubitGate in Gates.cpp. -/
def arity : PGate → ℕ
  | .XGate => 1
  | .YGate => 1
  | .ZGate => 1
  | .HadamardGate => 1
  | .SGate => 1
  | .TGate => 1
  | .RotationXGate _ _ => 1
  | .RotationYGate _ _ => 1
  | .RotationZGate _ _ => 1
  | .PhaseShiftGate _ => 1
  | .GeneralRotationGate _ _ _ _ => 1
  | .CNOTGate => 2
  | .SWAPGate => 2
  | .CZGate => 2
  | .CRotationXGate _ _ => 2
  | .CRotationYGate _ _ => 2
  | .CRotationZGate _ _ => 2
  | .CGeneralRotationGate _ _ _ _ => 2
  | .ToffoliGate => 3
  | .CSWAPGate => 3

/-- Row-major matrix of each gate, exactly the static or per-instance matrix
member initialized in Gates.cpp, returned by asMatrix(). -/
noncomputable def asMatrix : PGate → List ℂ
  | .XGate => [0, 1, 1, 0]
  | .YGate => [0, -IMAG, IMAG, 0]
  | .ZGate => [1, 0, 0, -1]
  | .HadamardGate => [SQRT2INV, SQRT2INV, SQRT2INV, -SQRT2INV]
  | .SGate => [1, 0, 0, IMAG]
  | .TGate => [1, 0, 0, TGate.shift]
  | .RotationXGate c js => [c, js, js, c]
  | .RotationYGate c s => [c, -s, s, c]
  | .RotationZGate first second => [first, 0, 0, second]
  | .PhaseShiftGate shift => [1, 0, 0, shift]
  | .GeneralRotationGate r1 r2 r3 r4 => [r1, r2, r3, r4]
  | .CNOTGate => [1, 0, 0, 0, 0, 1, 0, 0, 0, 0, 0, 1, 0, 0, 1, 0]
  | .SWAPGate => [1, 0, 0, 0, 0, 0, 1, 0, 0, 1, 0, 0, 0, 0, 0, 1]
  | .CZGate => [1, 0, 0, 0, 0, 1, 0, 0, 0, 0, 1, 0, 0, 0, 0, -1]
  | .CRotationXGate c js => [1, 0, 0, 0, 0, 1, 0, 0, 0, 0, c, js, 0, 0, js, c]
  | .CRotationYGate c s => [1, 0, 0, 0, 0, 1, 0, 0, 0, 0, c, -s, 0, 0, s, c]
  | .CRotationZGate first second =>
      [1, 0, 0, 0, 0, 1, 0, 0, 0, 0, first, 0, 0, 0, 0, second]
  | .CGeneralRotationGate r1 r2 r3 r4 =>
      [1, 0, 0, 0, 0, 1, 0, 0, 0, 0, r1, r2, 0, 0, r3, r4]
  | .ToffoliGate =>
      [1, 0, 0, 0, 0, 0, 0, 0,
       0, 1, 0, 0, 0, 0, 0, 0,
       0, 0, 1, 0, 0, 0, 0, 0,
       0, 0, 0, 1, 0, 0, 0, 0,
       0, 0, 0, 0, 1, 0, 0, 0,
       0, 0, 0, 0, 0, 1, 0, 0,
       0, 0, 0, 0, 0, 0, 0, 1,
       0, 0, 0, 0, 0, 0, 1, 0]
  | .CSWAPGate =>
      [1, 0, 0, 0, 0, 0, 0, 0,
       0, 1, 0, 0, 0, 0, 0, 0,
       0, 0, 1, 0, 0, 0, 0, 0,
       0, 0, 0, 1, 0, 0, 0, 0,
       0, 0, 0, 0, 1, 0, 0, 0,
       0, 0, 0, 0, 0, 0, 1, 0,
       0, 0, 0, 0, 0, 1, 0, 0,
       0, 0, 0, 0, 0, 0, 0, 1]

/-- Dot product of row i of a row-major len-by-len matrix with the gathered
vector v: the inner accumulation loop of AbstractGate::applyKernel, which
zeroes state[index] and then adds matrix[i*len + j] * v[j] for each j. -/
noncomputable def rowDot (matrix v : List ℂ) (len i : ℕ) : ℂ :=
  ((List.range len).map (fun j => matrix.getD (i * len + j) 0 * v.getD j 0)).sum

/-- Generic gather/apply/scatter kernel AbstractGate::applyKernel from
Gates.cpp.  The gather loop copies state[indices[pos]] into v before any
scatter write happens, so the scatter sees only pre-call amplitudes; the
loops run over indices.size(), which the source asserts equal to the
2-to-the-numQubits member length. -/
noncomputable def AbstractGate.applyKernel (matrix : List ℂ) (s : QState)
    (indices : List ℕ) : QState :=
  (List.range indices.length).foldl
    (fun st i =>
      write st (indices.getD i 0) (rowDot matrix (indices.map s) indices.length i))
    s

/-- Specialized applyKernel of each gate class in Gates.cpp, translated
statement by statement; std::swap(a, b) is tmp = a; a = b; b = tmp.
RotationXGate, RotationYGate and GeneralRotationGate declare no override in
Gates.cpp, so they run the inherited generic kernel on their matrix. -/
noncomputable def applyKernel (g : PGate) (s : QState) (ind : List ℕ) : QState :=
  match g with
  | .XGate =>
      write (write s (ind.getD 0 0) (s (ind.getD 1 0))) (ind.getD 1 0) (s (ind.getD 0 0))
  | .YGate =>
      write (write s (ind.getD 0 0) (-IMAG * s (ind.getD 1 0))) (ind.getD 1 0)
        (IMAG * s (ind.getD 0 0))
  | .ZGate =>
      write s (ind.getD 1 0) (s (ind.getD 1 0) * (-1))
  | .HadamardGate =>
      write (write s (ind.getD 0 0) (SQRT2INV * (s (ind.getD 0 0) + s (ind.getD 1 0))))
        (ind.getD 1 0) (SQRT2INV * (s (ind.getD 0 0) - s (ind.getD 1 0)))
  | .SGate =>
      write s (ind.getD 1 0) (s (ind.getD 1 0) * IMAG)
  | .TGate =>
      write s (ind.getD 1 0) (s (ind.getD 1 0) * TGate.shift)
  | .RotationXGate c js =>
      AbstractGate.applyKernel (asMatrix (.RotationXGate c js)) s ind
  | .RotationYGate c s2 =>
      AbstractGate.applyKernel (asMatrix (.RotationYGate c s2)) s ind
  | .RotationZGate first second =>
      let s1 := write s (ind.getD 0 0) (s (ind.getD 0 0) * first)
      write s1 (ind.getD 1 0) (s1 (ind.getD 1 0) * second)
  | .PhaseShiftGate shift =>
      write s (ind.getD 1 0) (s (ind.getD 1 0) * shift)
  | .GeneralRotationGate r1 r2 r3 r4 =>
      AbstractGate.applyKernel (asMatrix (.GeneralRotationGate r1 r2 r3 r4)) s ind
  | .CNOTGate =>
      write (write s (ind.getD 2 0) (s (ind.getD 3 0))) (ind.getD 3 0) (s (ind.getD 2 0))
  | .SWAPGate =>
      write (write s (ind.getD 1 0) (s (ind.getD 2 0))) (ind.getD 2 0) (s (ind.getD 1 0))
  | .CZGate =>
      write s (ind.getD 3 0) (s (ind.getD 3 0) * (-1))
  | .CRotationXGate c js =>
      write (write s (ind.getD 2 0) (c * s (ind.getD 2 0) + js * s (ind.getD 3 0)))
        (ind.getD 3 0) (js * s (ind.getD 2 0) + c * s (ind.getD 3 0))
  | .CRotationYGate c s2 =>
      write (write s (ind.getD 2 0) (c * s (ind.getD 2 0) - s2 * s (ind.getD 3 0)))
        (ind.getD 3 0) (s2 * s (ind.getD 2 0) + c * s (ind.getD 3 0))
  | .CRotationZGate first second =>
      let s1 := write s (ind.getD 2 0) (s (ind.getD 2 0) * first)
      write s1 (ind.getD 3 0) (s1 (ind.getD 3 0) * second)
  | .CGeneralRotationGate r1 r2 r3 r4 =>
      write (write s (ind.getD 2 0) (r1 * s (ind.getD 2 0) + r2 * s (ind.getD 3 0)))
        (ind.getD 3 0) (r3 * s (ind.getD 2 0) + r4 * s (ind.getD 3 0))
  | .ToffoliGate =>
      write (write s (ind.getD 6 0) (s (ind.getD 7 0))) (ind.getD 7 0) (s (ind.getD 6 0))
  | .CSWAPGate =>
      write (write s (ind.getD 5 0) (s (ind.getD 6 0))) (ind.getD 6 0) (s (ind.getD 5 0))

/-- Modelled from the spec: generateBitPatterns declared in Apply.hpp with its
implementation in the missing Apply.cpp.  It returns the decimal values of all
bit patterns over the given qubit indices with all other bits zero, qubit 0
being the most significant bit, the qubit indices being evaluated from
last to first so that doubling by the value of a wire happens after the
patterns of the later wires are complete. -/
def generateBitPatterns (qubitIndices : List ℕ) (qubits : ℕ) : List ℕ :=
  match qubitIndices with
  | [] => [0]
  | w :: rest =>
      generateBitPatterns rest qubits ++
        (generateBitPatterns rest qubits).map (· + 2 ^ (qubits - 1 - w))

/-- Modelled from the spec: getIndicesExcluding declared in Apply.hpp with its
implementation in the missing Apply.cpp.  Set difference of the range
[0, qubits) and excludedIndices, in ascending order. -/
def getIndicesExcluding (excludedIndices : List ℕ) (qubits : ℕ) : List ℕ :=
  (List.range qubits).filter (fun i => decide (i ∉ excludedIndices))

/-- Pattern generator over a list of bit exponents: the combinatorial core of
generateBitPatterns once each wire w is replaced by its exponent
qubits - 1 - w. -/
def patterns : List ℕ → List ℕ
  | [] => [0]
  | e :: rest => patterns rest ++ (patterns rest).map (· + 2 ^ e)

/-- Error taxonomy of the engine, from the exceptions of Gates.cpp and the
spec's error section. -/
inductive GateError where
  | UnknownGate (label : String)
  | BadParameterCount (label : String) (required got : ℕ)
  | BadWireCount (required got : ℕ)
  | WireOutOfRange (wire qubits : ℕ)
  | DuplicateWire
  | BadBufferLength (got expected : ℕ)
  deriving DecidableEq

/-- The twenty gate classes of the catalogue in Gates.cpp, one tag per class
registered in createDispatchTable. -/
inductive GateKind where
  | X | Y | Z | Hadamard | S | T | RX | RY | RZ | PhaseShift | Rot
  | CNOT | SWAP | CZ | CRX | CRY | CRZ | CRot | Toffoli | CSWAP
  deriving DecidableEq

/-- Static label member of each gate class in Gates.cpp. -/
def labelOf : GateKind → String
  | .X => "PauliX"
  | .Y => "PauliY"
  | .Z => "PauliZ"
  | .Hadamard => "Hadamard"
  | .S => "S"
  | .T => "T"
  | .RX => "RX"
  | .RY => "RY"
  | .RZ => "RZ"
  | .PhaseShift => "PhaseShift"
  | .Rot => "Rot"
  | .CNOT => "CNOT"
  | .SWAP => "SWAP"
  | .CZ => "CZ"
  | .CRX => "CRX"
  | .CRY => "CRY"
  | .CRZ => "CRZ"
  | .CRot => "CRot"
  | .Toffoli => "Toffoli"
  | .CSWAP => "CSWAP"

/-- Required parameter-list length passed to validateLength by each gate's
static create function in Gates.cpp. -/
def requiredParams : GateKind → ℕ
  | .RX | .RY | .RZ | .PhaseShift | .CRX | .CRY | .CRZ => 1
  | .Rot | .CRot => 3
  | _ => 0

/-- Gate instance built by each gate class constructor in Gates.cpp from an
already validated parameter list, holding the precomputed scalars. -/
noncomputable def buildGate (k : GateKind) (parameters : List ℝ) : PGate :=
  match k with
  | .X => .XGate
  | .Y => .YGate
  | .Z => .ZGate
  | .Hadamard => .HadamardGate
  | .S => .SGate
  | .T => .TGate
  | .RX =>
      let rotationAngle := parameters.getD 0 0
      .RotationXGate ⟨Real.cos (rotationAngle / 2), 0⟩ ⟨0, Real.sin (-rotationAngle / 2)⟩
  | .RY =>
      let rotationAngle := parameters.getD 0 0
      .RotationYGate ⟨Real.cos (rotationAngle / 2), 0⟩ ⟨Real.sin (rotationAngle / 2), 0⟩
  | .RZ =>
      let rotationAngle := parameters.getD 0 0
      .RotationZGate (Complex.exp ⟨0, -rotationAngle / 2⟩) (Complex.exp ⟨0, rotationAngle / 2⟩)
  | .PhaseShift =>
      let rotationAngle := parameters.getD 0 0
      .PhaseShiftGate (Complex.exp ⟨0, rotationAngle⟩)
  | .Rot =>
      let phi := parameters.getD 0 0
      let theta := parameters.getD 1 0
      let omega := parameters.getD 2 0
      .GeneralRotationGate
        ((⟨Real.cos (theta / 2), 0⟩ : ℂ) * Complex.exp ⟨0, (-phi - omega) / 2⟩)
        (-(⟨Real.sin (theta / 2), 0⟩ : ℂ) * Complex.exp ⟨0, (phi - omega) / 2⟩)
        ((⟨Real.sin (theta / 2), 0⟩ : ℂ) * Complex.exp ⟨0, (-phi + omega) / 2⟩)
        ((⟨Real.cos (theta / 2), 0⟩ : ℂ) * Complex.exp ⟨0, (phi + omega) / 2⟩)
  | .CNOT => .CNOTGate
  | .SWAP => .SWAPGate
  | .CZ => .CZGate
  | .CRX =>
      let rotationAngle := parameters.getD 0 0
      .CRotationXGate ⟨Real.cos (rotationAngle / 2), 0⟩ ⟨0, Real.sin (-rotationAngle / 2)⟩
  | .CRY =>
      let rotationAngle := parameters.getD 0 0
      .CRotationYGate ⟨Real.cos (rotationAngle / 2), 0⟩ ⟨Real.sin (rotationAngle / 2), 0⟩
  | .CRZ =>
      let rotationAngle := parameters.getD 0 0
      .CRotationZGate (Complex.exp ⟨0, -rotationAngle / 2⟩) (Complex.exp ⟨0, rotationAngle / 2⟩)
  | .CRot =>
      let phi := parameters.getD 0 0
      let theta := parameters.getD 1 0
      let omega := parameters.getD 2 0
      .CGeneralRotationGate
        ((⟨Real.cos (theta / 2), 0⟩ : ℂ) * Complex.exp ⟨0, (-phi - omega) / 2⟩)
        (-(⟨Real.sin (theta / 2), 0⟩ : ℂ) * Complex.exp ⟨0, (phi - omega) / 2⟩)
        ((⟨Real.sin (theta / 2), 0⟩ : ℂ) * Complex.exp ⟨0, (-phi + omega) / 2⟩)
        ((⟨Real.cos (theta / 2), 0⟩ : ℂ) * Complex.exp ⟨0, (phi + omega) / 2⟩)
  | .Toffoli => .ToffoliGate
  | .CSWAP => .CSWAPGate

/-- The static helper validateLength of Gates.cpp: throws invalid_argument
when the parameter vector size differs from the required length. -/
def validateLength (errorPrefix : String) (got requiredLength : ℕ) :
    Except GateError Unit :=
  if got = requiredLength then .ok ()
  else .error (.BadParameterCount errorPrefix requiredLength got)

/-- Static create function of each gate class in Gates.cpp: validate the
parameter-list length, then run the class constructor. -/
noncomputable def createGate (k : GateKind) (parameters : List ℝ) :
    Except GateError PGate :=
  match validateLength (labelOf k) parameters.length (requiredParams k) with
  | .ok _ => .ok (buildGate k parameters)
  | .error e => .error e

/-- The label-to-constructor mapping built by createDispatchTable in
Gates.cpp, in registration order. -/
def dispatchTable : List (String × GateKind) :=
  [("PauliX", .X), ("PauliY", .Y), ("PauliZ", .Z), ("Hadamard", .Hadamard),
   ("S", .S), ("T", .T), ("RX", .RX), ("RY", .RY), ("RZ", .RZ),
   ("PhaseShift", .PhaseShift), ("Rot", .Rot), ("CNOT", .CNOT),
   ("SWAP", .SWAP), ("CZ", .CZ), ("CRX", .CRX), ("CRY", .CRY),
   ("CRZ", .CRZ), ("CRot", .CRot), ("Toffoli", .Toffoli), ("CSWAP", .CSWAP)]

/-- The twenty catalogued gate labels. -/
def catalogueLabels : List String :=
  ["PauliX", "PauliY", "PauliZ", "Hadamard", "S", "T", "RX", "RY", "RZ",
   "PhaseShift", "Rot", "CNOT", "SWAP", "CZ", "CRX", "CRY", "CRZ", "CRot",
   "Toffoli", "CSWAP"]

/-- Pennylane::constructGate from Gates.cpp: look the label up in the
dispatch table; throw invalid_argument for an unsupported gate type,
otherwise run the registered constructor closure on the parameters. -/
noncomputable def constructGate (label : String) (parameters : List ℝ) :
    Except GateError PGate :=
  match List.lookup label dispatchTable with
  | some k => createGate k parameters
  | none => .error (.UnknownGate label)

/-- One operation of an apply call: gate label, wires acted on, parameters. -/
structure Operation where
  label : String
  wires : List ℕ
  params : List ℝ

/-- Modelled from the spec: the validation part of constructAndApplyOperation
from the missing Apply.cpp, per the spec's driver contract: construct the
gate (UnknownGate, BadParameterCount), then check the wire count against the
gate arity, wire distinctness and wire range. -/
noncomputable def validateOp (qubits : ℕ) (op : Operation) :
    Except GateError PGate :=
  match constructGate op.label op.params with
  | .error e => .error e
  | .ok g =>
      if op.wires.length ≠ arity g then .error (.BadWireCount (arity g) op.wires.length)
      else if ¬ op.wires.Nodup then .error .DuplicateWire
      else
        match op.wires.find? (fun w => decide (qubits ≤ w)) with
        | some w => .error (.WireOutOfRange w qubits)
        | none => .ok g

/-- Modelled from the spec: the application part of constructAndApplyOperation
from the missing Apply.cpp: compute the kernel offsets for the wires and the
complement offsets for the remaining wires, then invoke the gate kernel on
each complement offset added to every kernel offset. -/
noncomputable def applyOperation (g : PGate) (opWires : List ℕ) (qubits : ℕ)
    (st : QState) : QState :=
  let internalIndices := generateBitPatterns opWires qubits
  let externalIndices := generateBitPatterns (getIndicesExcluding opWires qubits) qubits
  externalIndices.foldl
    (fun st c => applyKernel g st (internalIndices.map (fun kk => c + kk))) st

/-- Modelled from the spec: the operation loop of apply from the missing
Apply.cpp.  Operations run strictly left to right; the first validation
failure aborts the call, leaving the state as mutated by the operations
already completed, paired with the error. -/
noncomputable def applySequence (qubits : ℕ) :
    List Operation → QState → QState × Option GateError
  | [], st => (st, none)
  | op :: rest, st =>
      match validateOp qubits op with
      | .error e => (st, some e)
      | .ok g => applySequence qubits rest (applyOperation g op.wires qubits st)

/-- Reference fold applying a list of operations that all validate: the
result the spec promises for the completed prefix of an aborted call. -/
noncomputable def applyValidOps (qubits : ℕ) (ops : List Operation) (st : QState) :
    QState :=
  ops.foldl
    (fun st op =>
      match validateOp qubits op with
      | .ok g => applyOperation g op.wires qubits st
      | .error _ => st) st

/-- Modelled from the spec: the apply entry point of the missing Apply.cpp,
which receives the state buffer of the given length and fails with
BadBufferLength unless that length is exactly 2 to the number of qubits. -/
noncomputable def applyDriver (stateLength qubits : ℕ) (ops : List Operation)
    (st : QState) : QState × Option GateError :=
  if stateLength = 2 ^ qubits then applySequence qubits ops st
  else (st, some (.BadBufferLength stateLength (2 ^ qubits)))

/-- Bounds-checked gather loop of AbstractGate::applyKernel: copy
state[index] into v[pos] for each index, pos counting up from zero; fail if a
state read or a scratch write would be out of bounds. -/
noncomputable def gatherChecked (stateLen : ℕ) (s : QState) :
    List ℕ → ℕ → List ℂ → Option (List ℂ)
  | [], _, v => some v
  | index :: rest, pos, v =>
      if index < stateLen ∧ pos < v.length then
        gatherChecked stateLen s rest (pos + 1) (v.set pos (s index))
      else none

/-- Bounds-checked inner accumulation loop of AbstractGate::applyKernel:
starting from the zeroed amplitude, add matrix[base + j] * v[j] for each j,
failing on an out-of-bounds matrix or scratch read. -/
noncomputable def accumChecked (matrix v : List ℂ) (base : ℕ) :
    List ℕ → ℂ → Option ℂ
  | [], acc => some acc
  | j :: rest, acc =>
      if base + j < matrix.length ∧ j < v.length then
        accumChecked matrix v base rest (acc + matrix.getD (base + j) 0 * v.getD j 0)
      else none

/-- Bounds-checked scatter loop of AbstractGate::applyKernel: for each loop
counter i, write the accumulated row product to state[indices[i]], failing if
that position is out of bounds. -/
noncomputable def scatterChecked (matrix : List ℂ) (stateLen : ℕ)
    (indices : List ℕ) (v : List ℂ) : QState → List ℕ → Option QState
  | st, [] => some st
  | st, i :: rest =>
      let index := indices.getD i 0
      if index < stateLen then
        match accumChecked matrix v (i * indices.length) (List.range indices.length) 0 with
        | some z => scatterChecked matrix stateLen indices v (write st index z) rest
        | none => none
      else none

/-- Bounds-checked AbstractGate::applyKernel: the assertion that the index
tuple and the scratch vector both have the expected length, then the gather
loop, then the scatter loop, every buffer access checked. -/
noncomputable def applyKernelChecked (matrix : List ℂ) (len stateLen : ℕ)
    (s : QState) (indices : List ℕ) (v : List ℂ) : Option QState :=
  if indices.length = len ∧ v.length = len then
    match gatherChecked stateLen s indices 0 v with
    | some v2 => scatterChecked matrix stateLen indices v2 s (List.range indices.length)
    | none => none
  else none

/-- The nine catalogued gates the spec's round-trip law declares to be
involutions. -/
def isInvolutory : PGate → Bool
  | .XGate | .YGate | .ZGate | .HadamardGate | .CNOTGate | .SWAPGate
  | .CZGate | .ToffoliGate | .CSWAPGate => true
  | _ => false

/-- Concrete state used to instantiate hypotheses of witness theorems. -/
noncomputable def sampleState : QState := fun n => (n : ℂ)

theorem write_self (s : QState) (i : ℕ) (z : ℂ) : write s i z i = z := by
  simp [write]

theorem write_ne {p i : ℕ} (h : p ≠ i) (s : QState) (z : ℂ) : write s i z p = s p := by
  simp [write, h]

theorem getD_mem_of_lt {ind : List ℕ} {k : ℕ} (h : k < ind.length) :
    ind.getD k 0 ∈ ind := by
  rw [List.getD_eq_getElem _ _ h]
  exact List.getElem_mem h

theorem ne_getD_of_not_mem {ind : List ℕ} {p k : ℕ} (hp : p ∉ ind)
    (h : k < ind.length) : p ≠ ind.getD k 0 := by
  intro he
  exact hp (he ▸ getD_mem_of_lt h)

theorem getD_inj_of_nodup {ind : List ℕ} (hnd : ind.Nodup) {i j : ℕ}
    (hi : i < ind.length) (hj : j < ind.length)
    (h : ind.getD i 0 = ind.getD j 0) : i = j := by
  rw [List.getD_eq_getElem _ _ hi, List.getD_eq_getElem _ _ hj] at h
  exact hnd.getElem_inj_iff.mp h

theorem scatter_foldl_not_mem (ind : List ℕ) (w : ℕ → ℂ) (p : ℕ) (hp : p ∉ ind)
    (js : List ℕ) (hjs : ∀ j ∈ js, j < ind.length) :
    ∀ s : QState, (js.foldl (fun st i => write st (ind.getD i 0) (w i)) s) p = s p := by
  induction js with
  | nil => intro s; rfl
  | cons j rest ih =>
      intro s
      rw [List.foldl_cons]
      rw [ih (fun t ht => hjs t (List.mem_cons_of_mem j ht))]
      exact write_ne (ne_getD_of_not_mem hp (hjs j (List.mem_cons_self j rest))) s _

theorem scatter_foldl_getD (ind : List ℕ) (hnd : ind.Nodup) (w : ℕ → ℂ)
    (s : QState) :
    ∀ n, n ≤ ind.length → ∀ i, i < n →
      ((List.range n).foldl (fun st t => write st (ind.getD t 0) (w t)) s)
          (ind.getD i 0) = w i := by
  intro n
  induction n with
  | zero => intro _ i hi; omega
  | succ m ih =>
      intro hm i hi
      rw [List.range_succ, List.foldl_append, List.foldl_cons, List.foldl_nil]
      by_cases him : i = m
      · subst him
        exact write_self _ _ _
      · have him2 : i < m := by omega
        have hne : ind.getD i 0 ≠ ind.getD m 0 := by
          intro he
          exact him (getD_inj_of_nodup hnd (by omega) (by omega) he)
        rw [write_ne hne]
        exact ih (by omega) i him2

/-- Claim C4: the generic AbstractGate::applyKernel gathers every amplitude
state[indices[i]] into the scratch vector before any scatter write occurs, so
the amplitude it leaves at indices[i] is exactly the dot product of row i of
the matrix with the pre-call amplitudes at the index tuple. -/
theorem gatherScatterRowProduct (matrix : List ℂ) (s : QState) (ind : List ℕ)
    (hnd : ind.Nodup) (i : ℕ) (hi : i < ind.length) :
    AbstractGate.applyKernel matrix s ind (ind.getD i 0) =
      rowDot matrix (ind.map s) ind.length i := by
  unfold AbstractGate.applyKernel
  exact scatter_foldl_getD ind hnd _ s ind.length le_rfl i hi

theorem gatherScatterRowProduct_witness :
    (([2, 5] : List ℕ)).Nodup ∧
      AbstractGate.applyKernel [0, 1, 1, 0] sampleState [2, 5] (([2, 5] : List ℕ).getD 0 0) =
        rowDot [0, 1, 1, 0] (([2, 5] : List ℕ).map sampleState) ([2, 5] : List ℕ).length 0 :=
  ⟨by decide, gatherScatterRowProduct [0, 1, 1, 0] sampleState [2, 5] (by decide) 0 (by decide)⟩

/-- Claim C9: every gate kernel invoked with a full-length index tuple
mutates only amplitudes at positions contained in that tuple; any position
outside the tuple keeps its pre-call amplitude. -/
theorem kernelFrame (g : PGate) (s : QState) (ind : List ℕ) (p : ℕ)
    (hlen : ind.length = 2 ^ arity g) (hp : p ∉ ind) :
    applyKernel g s ind p = s p := by
  have hgen : ∀ matrix : List ℂ, AbstractGate.applyKernel matrix s ind p = s p := by
    intro matrix
    unfold AbstractGate.applyKernel
    exact scatter_foldl_not_mem ind _ p hp (List.range ind.length)
      (fun j hj => List.mem_range.mp hj) s
  have hne : ∀ k, k < ind.length → p ≠ ind.getD k 0 :=
    fun k hk => ne_getD_of_not_mem hp hk
  cases g with
  | XGate =>
      have h2 : ind.length = 2 := by simpa [arity] using hlen
      simp only [applyKernel]
      rw [write_ne (hne 1 (by omega)), write_ne (hne 0 (by omega))]
  | YGate =>
      have h2 : ind.length = 2 := by simpa [arity] using hlen
      simp only [applyKernel]
      rw [write_ne (hne 1 (by omega)), write_ne (hne 0 (by omega))]
  | ZGate =>
      have h2 : ind.length = 2 := by simpa [arity] using hlen
      simp only [applyKernel]
      rw [write_ne (hne 1 (by omega))]
  | HadamardGate =>
      have h2 : ind.length = 2 := by simpa [arity] using hlen
      simp only [applyKernel]
      rw [write_ne (hne 1 (by omega)), write_ne (hne 0 (by omega))]
  | SGate =>
      have h2 : ind.length = 2 := by simpa [arity] using hlen
      simp only [applyKernel]
      rw [write_ne (hne 1 (by omega))]
  | TGate =>
      have h2 : ind.length = 2 := by simpa [arity] using hlen
      simp only [applyKernel]
      rw [write_ne (hne 1 (by omega))]
  | RotationXGate c js => exact hgen _
  | RotationYGate c s2 => exact hgen _
  | RotationZGate first second =>
      have h2 : ind.length = 2 := by simpa [arity] using hlen
      simp only [applyKernel]
      rw [write_ne (hne 1 (by omega)), write_ne (hne 0 (by omega))]
  | PhaseShiftGate shift =>
      have h2 : ind.length = 2 := by simpa [arity] using hlen
      simp only [applyKernel]
      rw [write_ne (hne 1 (by omega))]
  | GeneralRotationGate r1 r2 r3 r4 => exact hgen _
  | CNOTGate =>
      have h2 : ind.length = 4 := by simpa [arity] using hlen
      simp only [applyKernel]
      rw [write_ne (hne 3 (by omega)), write_ne (hne 2 (by omega))]
  | SWAPGate =>
      have h2 : ind.length = 4 := by simpa [arity] using hlen
      simp only [applyKernel]
      rw [write_ne (hne 2 (by omega)), write_ne (hne 1 (by omega))]
  | CZGate =>
      have h2 : ind.length = 4 := by simpa [arity] using hlen
      simp only [applyKernel]
      rw [write_ne (hne 3 (by omega))]
  | CRotationXGate c js =>
      have h2 : ind.length = 4 := by simpa [arity] using hlen
      simp only [applyKernel]
      rw [write_ne (hne 3 (by omega)), write_ne (hne 2 (by omega))]
  | CRotationYGate c s2 =>
      have h2 : ind.length = 4 := by simpa [arity] using hlen
      simp only [applyKernel]
      rw [write_ne (hne 3 (by omega)), write_ne (hne 2 (by omega))]
  | CRotationZGate first second =>
      have h2 : ind.length = 4 := by simpa [arity] using hlen
      simp only [applyKernel]
      rw [write_ne (hne 3 (by omega)), write_ne (hne 2 (by omega))]
  | CGeneralRotationGate r1 r2 r3 r4 =>
      have h2 : ind.length = 4 := by simpa [arity] using hlen
      simp only [applyKernel]
      rw [write_ne (hne 3 (by omega)), write_ne (hne 2 (by omega))]
  | ToffoliGate =>
      have h2 : ind.length = 8 := by simpa [arity] using hlen
      simp only [applyKernel]
      rw [write_ne (hne 7 (by omega)), write_ne (hne 6 (by omega))]
  | CSWAPGate =>
      have h2 : ind.length = 8 := by simpa [arity] using hlen
      simp only [applyKernel]
      rw [write_ne (hne 6 (by omega)), write_ne (hne 5 (by omega))]

theorem kernelFrame_witness :
    (([4, 9] : List ℕ)).length = 2 ^ arity PGate.ZGate ∧ (1 : ℕ) ∉ ([4, 9] : List ℕ) ∧
      applyKernel PGate.ZGate sampleState [4, 9] 1 = sampleState 1 :=
  ⟨by decide, by decide,
    kernelFrame PGate.ZGate sampleState [4, 9] 1 (by decide) (by decide)⟩

theorem length_eq_four {α : Type _} {l : List α} :
    l.length = 4 ↔ ∃ a b c d, l = [a, b, c, d] := by
  constructor
  · intro h
    rcases l with _ | ⟨a, _ | ⟨b, _ | ⟨c, _ | ⟨d, _ | ⟨e, t⟩⟩⟩⟩⟩ <;>
      simp only [List.length_cons, List.length_nil] at h <;>
      first
        | omega
        | exact ⟨a, b, c, d, rfl⟩
  · rintro ⟨a, b, c, d, rfl⟩
    rfl

theorem length_eq_eight {α : Type _} {l : List α} :
    l.length = 8 ↔ ∃ a b c d e f g h, l = [a, b, c, d, e, f, g, h] := by
  constructor
  · intro h
    rcases l with
      _ | ⟨a, _ | ⟨b, _ | ⟨c, _ | ⟨d, _ | ⟨e, _ | ⟨f, _ | ⟨g, _ | ⟨i, _ | ⟨j, t⟩⟩⟩⟩⟩⟩⟩⟩⟩ <;>
      simp only [List.length_cons, List.length_nil] at h <;>
      first
        | omega
        | exact ⟨a, b, c, d, e, f, g, i, rfl⟩
  · rintro ⟨a, b, c, d, e, f, g, h, rfl⟩
    rfl

set_option maxHeartbeats 2000000 in
/-- Claim C1: for every catalogued gate and every duplicate-free index tuple
of the gate's kernel length, the specialized applyKernel leaves the state
exactly equal to the generic matrix path of AbstractGate::applyKernel run on
the matrix returned by asMatrix (exact complex arithmetic, hence equality up
to floating-point round-off in the source). -/
theorem matrixAgreement (g : PGate) (s : QState) (ind : List ℕ)
    (hlen : ind.length = 2 ^ arity g) (hnd : ind.Nodup) :
    applyKernel g s ind = AbstractGate.applyKernel (asMatrix g) s ind := by
  cases g with
  | XGate =>
      simp only [arity, Nat.reducePow] at hlen
      obtain ⟨a, b, rfl⟩ := List.length_eq_two.mp hlen
      simp only [List.nodup_cons, List.mem_cons, List.not_mem_nil, or_false,
        not_or, List.nodup_nil, and_true] at hnd
      funext p
      simp only [applyKernel, AbstractGate.applyKernel, asMatrix, rowDot,
        List.length_cons, List.length_nil, show List.range 2 = [0, 1] from rfl,
        List.foldl_cons, List.foldl_nil, List.map_cons, List.map_nil,
        List.getD_cons_zero, List.getD_cons_succ, List.sum_cons, List.sum_nil,
        Nat.reduceMul, Nat.reduceAdd, write]
      split_ifs <;> subst_vars <;> first | ring1 | omega | simp_all
  | YGate =>
      simp only [arity, Nat.reducePow] at hlen
      obtain ⟨a, b, rfl⟩ := List.length_eq_two.mp hlen
      simp only [List.nodup_cons, List.mem_cons, List.not_mem_nil, or_false,
        not_or, List.nodup_nil, and_true] at hnd
      funext p
      simp only [applyKernel, AbstractGate.applyKernel, asMatrix, rowDot,
        List.length_cons, List.length_nil, show List.range 2 = [0, 1] from rfl,
        List.foldl_cons, List.foldl_nil, List.map_cons, List.map_nil,
        List.getD_cons_zero, List.getD_cons_succ, List.sum_cons, List.sum_nil,
        Nat.reduceMul, Nat.reduceAdd, write]
      split_ifs <;> subst_vars <;> first | ring1 | omega | simp_all
  | ZGate =>
      simp only [arity, Nat.reducePow] at hlen
      obtain ⟨a, b, rfl⟩ := List.length_eq_two.mp hlen
      simp only [List.nodup_cons, List.mem_cons, List.not_mem_nil, or_false,
        not_or, List.nodup_nil, and_true] at hnd
      funext p
      simp only [applyKernel, AbstractGate.applyKernel, asMatrix, rowDot,
        List.length_cons, List.length_nil, show List.range 2 = [0, 1] from rfl,
        List.foldl_cons, List.foldl_nil, List.map_cons, List.map_nil,
        List.getD_cons_zero, List.getD_cons_succ, List.sum_cons, List.sum_nil,
        Nat.reduceMul, Nat.reduceAdd, write]
      split_ifs <;> subst_vars <;> first | ring1 | omega | simp_all
  | HadamardGate =>
      simp only [arity, Nat.reducePow] at hlen
      obtain ⟨a, b, rfl⟩ := List.length_eq_two.mp hlen
      simp only [List.nodup_cons, List.mem_cons, List.not_mem_nil, or_false,
        not_or, List.nodup_nil, and_true] at hnd
      funext p
      simp only [applyKernel, AbstractGate.applyKernel, asMatrix, rowDot,
        List.length_cons, List.length_nil, show List.range 2 = [0, 1] from rfl,
        List.foldl_cons, List.foldl_nil, List.map_cons, List.map_nil,
        List.getD_cons_zero, List.getD_cons_succ, List.sum_cons, List.sum_nil,
        Nat.reduceMul, Nat.reduceAdd, write]
      split_ifs <;> subst_vars <;> first | ring1 | omega | simp_all
  | SGate =>
      simp only [arity, Nat.reducePow] at hlen
      obtain ⟨a, b, rfl⟩ := List.length_eq_two.mp hlen
      simp only [List.nodup_cons, List.mem_cons, List.not_mem_nil, or_false,
        not_or, List.nodup_nil, and_true] at hnd
      funext p
      simp only [applyKernel, AbstractGate.applyKernel, asMatrix, rowDot,
        List.length_cons, List.length_nil, show List.range 2 = [0, 1] from rfl,
        List.foldl_cons, List.foldl_nil, List.map_cons, List.map_nil,
        List.getD_cons_zero, List.getD_cons_succ, List.sum_cons, List.sum_nil,
        Nat.reduceMul, Nat.reduceAdd, write]
      split_ifs <;> subst_vars <;> first | ring1 | omega | simp_all
  | TGate =>
      simp only [arity, Nat.reducePow] at hlen
      obtain ⟨a, b, rfl⟩ := List.length_eq_two.mp hlen
      simp only [List.nodup_cons, List.mem_cons, List.not_mem_nil, or_false,
        not_or, List.nodup_nil, and_true] at hnd
      funext p
      simp only [applyKernel, AbstractGate.applyKernel, asMatrix, rowDot,
        List.length_cons, List.length_nil, show List.range 2 = [0, 1] from rfl,
        List.foldl_cons, List.foldl_nil, List.map_cons, List.map_nil,
        List.getD_cons_zero, List.getD_cons_succ, List.sum_cons, List.sum_nil,
        Nat.reduceMul, Nat.reduceAdd, write]
      split_ifs <;> subst_vars <;> first | ring1 | omega | simp_all
  | RotationXGate c js => rfl
  | RotationYGate c s2 => rfl
  | RotationZGate first second =>
      simp only [arity, Nat.reducePow] at hlen
      obtain ⟨a, b, rfl⟩ := List.length_eq_two.mp hlen
      simp only [List.nodup_cons, List.mem_cons, List.not_mem_nil, or_false,
        not_or, List.nodup_nil, and_true] at hnd
      funext p
      simp only [applyKernel, AbstractGate.applyKernel, asMatrix, rowDot,
        List.length_cons, List.length_nil, show List.range 2 = [0, 1] from rfl,
        List.foldl_cons, List.foldl_nil, List.map_cons, List.map_nil,
        List.getD_cons_zero, List.getD_cons_succ, List.sum_cons, List.sum_nil,
        Nat.reduceMul, Nat.reduceAdd, write]
      split_ifs <;> subst_vars <;> first | ring1 | omega | simp_all
  | PhaseShiftGate shift =>
      simp only [arity, Nat.reducePow] at hlen
      obtain ⟨a, b, rfl⟩ := List.length_eq_two.mp hlen
      simp only [List.nodup_cons, List.mem_cons, List.not_mem_nil, or_false,
        not_or, List.nodup_nil, and_true] at hnd
      funext p
      simp only [applyKernel, AbstractGate.applyKernel, asMatrix, rowDot,
        List.length_cons, List.length_nil, show List.range 2 = [0, 1] from rfl,
        List.foldl_cons, List.foldl_nil, List.map_cons, List.map_nil,
        List.getD_cons_zero, List.getD_cons_succ, List.sum_cons, List.sum_nil,
        Nat.reduceMul, Nat.reduceAdd, write]
      split_ifs <;> subst_vars <;> first | ring1 | omega | simp_all
  | GeneralRotationGate r1 r2 r3 r4 => rfl
  | CNOTGate =>
      simp only [arity, Nat.reducePow] at hlen
      obtain ⟨a, b, c2, d, rfl⟩ := length_eq_four.mp hlen
      simp only [List.nodup_cons, List.mem_cons, List.not_mem_nil, or_false,
        not_or, List.nodup_nil, and_true] at hnd
      funext p
      simp only [applyKernel, AbstractGate.applyKernel, asMatrix, rowDot,
        List.length_cons, List.length_nil, show List.range 4 = [0, 1, 2, 3] from rfl,
        List.foldl_cons, List.foldl_nil, List.map_cons, List.map_nil,
        List.getD_cons_zero, List.getD_cons_succ, List.sum_cons, List.sum_nil,
        Nat.reduceMul, Nat.reduceAdd, write]
      split_ifs <;> subst_vars <;> first | ring1 | omega | simp_all
  | SWAPGate =>
      simp only [arity, Nat.reducePow] at hlen
      obtain ⟨a, b, c2, d, rfl⟩ := length_eq_four.mp hlen
      simp only [List.nodup_cons, List.mem_cons, List.not_mem_nil, or_false,
        not_or, List.nodup_nil, and_true] at hnd
      funext p
      simp only [applyKernel, AbstractGate.applyKernel, asMatrix, rowDot,
        List.length_cons, List.length_nil, show List.range 4 = [0, 1, 2, 3] from rfl,
        List.foldl_cons, List.foldl_nil, List.map_cons, List.map_nil,
        List.getD_cons_zero, List.getD_cons_succ, List.sum_cons, List.sum_nil,
        Nat.reduceMul, Nat.reduceAdd, write]
      split_ifs <;> subst_vars <;> first | ring1 | omega | simp_all
  | CZGate =>
      simp only [arity, Nat.reducePow] at hlen
      obtain ⟨a, b, c2, d, rfl⟩ := length_eq_four.mp hlen
      simp only [List.nodup_cons, List.mem_cons, List.not_mem_nil, or_false,
        not_or, List.nodup_nil, and_true] at hnd
      funext p
      simp only [applyKernel, AbstractGate.applyKernel, asMatrix, rowDot,
        List.length_cons, List.length_nil, show List.range 4 = [0, 1, 2, 3] from rfl,
        List.foldl_cons, List.foldl_nil, List.map_cons, List.map_nil,
        List.getD_cons_zero, List.getD_cons_succ, List.sum_cons, List.sum_nil,
        Nat.reduceMul, Nat.reduceAdd, write]
      split_ifs <;> subst_vars <;> first | ring1 | omega | simp_all
  | CRotationXGate c js =>
      simp only [arity, Nat.reducePow] at hlen
      obtain ⟨a, b, c2, d, rfl⟩ := length_eq_four.mp hlen
      simp only [List.nodup_cons, List.mem_cons, List.not_mem_nil, or_false,
        not_or, List.nodup_nil, and_true] at hnd
      funext p
      simp only [applyKernel, AbstractGate.applyKernel, asMatrix, rowDot,
        List.length_cons, List.length_nil, show List.range 4 = [0, 1, 2, 3] from rfl,
        List.foldl_cons, List.foldl_nil, List.map_cons, List.map_nil,
        List.getD_cons_zero, List.getD_cons_succ, List.sum_cons, List.sum_nil,
        Nat.reduceMul, Nat.reduceAdd, write]
      split_ifs <;> subst_vars <;> first | ring1 | omega | simp_all
  | CRotationYGate c s2 =>
      simp only [arity, Nat.reducePow] at hlen
      obtain ⟨a, b, c2, d, rfl⟩ := length_eq_four.mp hlen
      simp only [List.nodup_cons, List.mem_cons, List.not_mem_nil, or_false,
        not_or, List.nodup_nil, and_true] at hnd
      funext p
      simp only [applyKernel, AbstractGate.applyKernel, asMatrix, rowDot,
        List.length_cons, List.length_nil, show List.range 4 = [0, 1, 2, 3] from rfl,
        List.foldl_cons, List.foldl_nil, List.map_cons, List.map_nil,
        List.getD_cons_zero, List.getD_cons_succ, List.sum_cons, List.sum_nil,
        Nat.reduceMul, Nat.reduceAdd, write]
      split_ifs <;> subst_vars <;> first | ring1 | omega | simp_all
  | CRotationZGate first second =>
      simp only [arity, Nat.reducePow] at hlen
      obtain ⟨a, b, c2, d, rfl⟩ := length_eq_four.mp hlen
      simp only [List.nodup_cons, List.mem_cons, List.not_mem_nil, or_false,
        not_or, List.nodup_nil, and_true] at hnd
      funext p
      simp only [applyKernel, AbstractGate.applyKernel, asMatrix, rowDot,
        List.length_cons, List.length_nil, show List.range 4 = [0, 1, 2, 3] from rfl,
        List.foldl_cons, List.foldl_nil, List.map_cons, List.map_nil,
        List.getD_cons_zero, List.getD_cons_succ, List.sum_cons, List.sum_nil,
        Nat.reduceMul, Nat.reduceAdd, write]
      split_ifs <;> subst_vars <;> first | ring1 | omega | simp_all
  | CGeneralRotationGate r1 r2 r3 r4 =>
      simp only [arity, Nat.reducePow] at hlen
      obtain ⟨a, b, c2, d, rfl⟩ := length_eq_four.mp hlen
      simp only [List.nodup_cons, List.mem_cons, List.not_mem_nil, or_false,
        not_or, List.nodup_nil, and_true] at hnd
      funext p
      simp only [applyKernel, AbstractGate.applyKernel, asMatrix, rowDot,
        List.length_cons, List.length_nil, show List.range 4 = [0, 1, 2, 3] from rfl,
        List.foldl_cons, List.foldl_nil, List.map_cons, List.map_nil,
        List.getD_cons_zero, List.getD_cons_succ, List.sum_cons, List.sum_nil,
        Nat.reduceMul, Nat.reduceAdd, write]
      split_ifs <;> subst_vars <;> first | ring1 | omega | simp_all
  | ToffoliGate =>
      simp only [arity, Nat.reducePow] at hlen
      obtain ⟨a, b, c2, d, e, f2, g2, h2, rfl⟩ := length_eq_eight.mp hlen
      simp only [List.nodup_cons, List.mem_cons, List.not_mem_nil, or_false,
        not_or, List.nodup_nil, and_true] at hnd
      funext p
      simp only [applyKernel, AbstractGate.applyKernel, asMatrix, rowDot,
        List.length_cons, List.length_nil, show List.range 8 = [0, 1, 2, 3, 4, 5, 6, 7] from rfl,
        List.foldl_cons, List.foldl_nil, List.map_cons, List.map_nil,
        List.getD_cons_zero, List.getD_cons_succ, List.sum_cons, List.sum_nil,
        Nat.reduceMul, Nat.reduceAdd, write]
      split_ifs <;> subst_vars <;> first | ring1 | omega | simp_all
  | CSWAPGate =>
      simp only [arity, Nat.reducePow] at hlen
      obtain ⟨a, b, c2, d, e, f2, g2, h2, rfl⟩ := length_eq_eight.mp hlen
      simp only [List.nodup_cons, List.mem_cons, List.not_mem_nil, or_false,
        not_or, List.nodup_nil, and_true] at hnd
      funext p
      simp only [applyKernel, AbstractGate.applyKernel, asMatrix, rowDot,
        List.length_cons, List.length_nil, show List.range 8 = [0, 1, 2, 3, 4, 5, 6, 7] from rfl,
        List.foldl_cons, List.foldl_nil, List.map_cons, List.map_nil,
        List.getD_cons_zero, List.getD_cons_succ, List.sum_cons, List.sum_nil,
        Nat.reduceMul, Nat.reduceAdd, write]
      split_ifs <;> subst_vars <;> first | ring1 | omega | simp_all

theorem matrixAgreement_witness :
    (([3, 7] : List ℕ)).length = 2 ^ arity PGate.HadamardGate ∧
      (([3, 7] : List ℕ)).Nodup ∧
      applyKernel PGate.HadamardGate sampleState [3, 7] =
        AbstractGate.applyKernel (asMatrix PGate.HadamardGate) sampleState [3, 7] :=
  ⟨by decide, by decide,
    matrixAgreement PGate.HadamardGate sampleState [3, 7] (by decide) (by decide)⟩

theorem IMAG_mul_IMAG : IMAG * IMAG = -1 := by
  simp [IMAG, Complex.I_mul_I]

theorem SQRT2INV_sq : SQRT2INV * SQRT2INV = (2 : ℂ)⁻¹ := by
  rw [SQRT2INV, ← mul_inv, ← Complex.ofReal_mul,
    Real.mul_self_sqrt (by norm_num : (0 : ℝ) ≤ 2)]
  norm_num

set_option maxHeartbeats 1000000 in
/-- Claim C7: applying the specialized kernel of PauliX, PauliY, PauliZ,
Hadamard, CNOT, SWAP, CZ, Toffoli or CSWAP twice with the same
duplicate-free full-length index tuple restores every amplitude. -/
theorem involutionTwice (g : PGate) (hg : isInvolutory g = true) (s : QState)
    (ind : List ℕ) (hlen : ind.length = 2 ^ arity g) (hnd : ind.Nodup) :
    applyKernel g (applyKernel g s ind) ind = s := by
  cases g with
  | XGate =>
      simp only [arity, Nat.reducePow] at hlen
      obtain ⟨a, b, rfl⟩ := List.length_eq_two.mp hlen
      simp only [List.nodup_cons, List.mem_cons, List.not_mem_nil, or_false,
        not_or, List.nodup_nil, and_true] at hnd
      funext p
      simp only [applyKernel, List.getD_cons_zero, List.getD_cons_succ, write]
      split_ifs <;> subst_vars <;> first | ring1 | omega | simp_all
  | YGate =>
      simp only [arity, Nat.reducePow] at hlen
      obtain ⟨a, b, rfl⟩ := List.length_eq_two.mp hlen
      simp only [List.nodup_cons, List.mem_cons, List.not_mem_nil, or_false,
        not_or, List.nodup_nil, and_true] at hnd
      funext p
      simp only [applyKernel, List.getD_cons_zero, List.getD_cons_succ, write]
      split_ifs <;> subst_vars <;>
        first
          | ring1
          | omega
          | linear_combination (-(s p)) * IMAG_mul_IMAG
          | simp_all
  | ZGate =>
      simp only [arity, Nat.reducePow] at hlen
      obtain ⟨a, b, rfl⟩ := List.length_eq_two.mp hlen
      simp only [List.nodup_cons, List.mem_cons, List.not_mem_nil, or_false,
        not_or, List.nodup_nil, and_true] at hnd
      funext p
      simp only [applyKernel, List.getD_cons_zero, List.getD_cons_succ, write]
      split_ifs <;> subst_vars <;> first | ring1 | omega | simp_all
  | HadamardGate =>
      simp only [arity, Nat.reducePow] at hlen
      obtain ⟨a, b, rfl⟩ := List.length_eq_two.mp hlen
      simp only [List.nodup_cons, List.mem_cons, List.not_mem_nil, or_false,
        not_or, List.nodup_nil, and_true] at hnd
      funext p
      simp only [applyKernel, List.getD_cons_zero, List.getD_cons_succ, write]
      split_ifs <;> subst_vars <;>
        first
          | ring1
          | omega
          | linear_combination (2 * s p) * SQRT2INV_sq
          | simp_all
  | CNOTGate =>
      simp only [arity, Nat.reducePow] at hlen
      obtain ⟨a, b, c2, d, rfl⟩ := length_eq_four.mp hlen
      simp only [List.nodup_cons, List.mem_cons, List.not_mem_nil, or_false,
        not_or, List.nodup_nil, and_true] at hnd
      funext p
      simp only [applyKernel, List.getD_cons_zero, List.getD_cons_succ, write]
      split_ifs <;> subst_vars <;> first | ring1 | omega | simp_all
  | SWAPGate =>
      simp only [arity, Nat.reducePow] at hlen
      obtain ⟨a, b, c2, d, rfl⟩ := length_eq_four.mp hlen
      simp only [List.nodup_cons, List.mem_cons, List.not_mem_nil, or_false,
        not_or, List.nodup_nil, and_true] at hnd
      funext p
      simp only [applyKernel, List.getD_cons_zero, List.getD_cons_succ, write]
      split_ifs <;> subst_vars <;> first | ring1 | omega | simp_all
  | CZGate =>
      simp only [arity, Nat.reducePow] at hlen
      obtain ⟨a, b, c2, d, rfl⟩ := length_eq_four.mp hlen
      simp only [List.nodup_cons, List.mem_cons, List.not_mem_nil, or_false,
        not_or, List.nodup_nil, and_true] at hnd
      funext p
      simp only [applyKernel, List.getD_cons_zero, List.getD_cons_succ, write]
      split_ifs <;> subst_vars <;> first | ring1 | omega | simp_all
  | ToffoliGate =>
      simp only [arity, Nat.reducePow] at hlen
      obtain ⟨a, b, c2, d, e, f2, g2, h2, rfl⟩ := length_eq_eight.mp hlen
      simp only [List.nodup_cons, List.mem_cons, List.not_mem_nil, or_false,
        not_or, List.nodup_nil, and_true] at hnd
      funext p
      simp only [applyKernel, List.getD_cons_zero, List.getD_cons_succ, write]
      split_ifs <;> subst_vars <;> first | ring1 | omega | simp_all
  | CSWAPGate =>
      simp only [arity, Nat.reducePow] at hlen
      obtain ⟨a, b, c2, d, e, f2, g2, h2, rfl⟩ := length_eq_eight.mp hlen
      simp only [List.nodup_cons, List.mem_cons, List.not_mem_nil, or_false,
        not_or, List.nodup_nil, and_true] at hnd
      funext p
      simp only [applyKernel, List.getD_cons_zero, List.getD_cons_succ, write]
      split_ifs <;> subst_vars <;> first | ring1 | omega | simp_all
  | SGate => simp [isInvolutory] at hg
  | TGate => simp [isInvolutory] at hg
  | RotationXGate c js => simp [isInvolutory] at hg
  | RotationYGate c s2 => simp [isInvolutory] at hg
  | RotationZGate first second => simp [isInvolutory] at hg
  | PhaseShiftGate shift => simp [isInvolutory] at hg
  | GeneralRotationGate r1 r2 r3 r4 => simp [isInvolutory] at hg
  | CRotationXGate c js => simp [isInvolutory] at hg
  | CRotationYGate c s2 => simp [isInvolutory] at hg
  | CRotationZGate first second => simp [isInvolutory] at hg
  | CGeneralRotationGate r1 r2 r3 r4 => simp [isInvolutory] at hg

theorem involutionTwice_witness :
    isInvolutory PGate.XGate = true ∧
      applyKernel PGate.XGate (applyKernel PGate.XGate sampleState [5, 2]) [5, 2] =
        sampleState :=
  ⟨by decide,
    involutionTwice PGate.XGate (by decide) sampleState [5, 2] (by decide) (by decide)⟩

theorem generateBitPatterns_length (wires : List ℕ) (N : ℕ) :
    (generateBitPatterns wires N).length = 2 ^ wires.length := by
  induction wires with
  | nil => rfl
  | cons w rest ih =>
      simp only [generateBitPatterns, List.length_append, List.length_map, ih,
        List.length_cons]
      ring

theorem generateBitPatterns_getD (N : ℕ) (wires : List ℕ) :
    ∀ p, p < 2 ^ wires.length →
      (generateBitPatterns wires N).getD p 0 =
        ∑ j ∈ Finset.range wires.length,
          if Nat.testBit p j then 2 ^ (N - 1 - wires.getD (wires.length - 1 - j) 0)
          else 0 := by
  induction wires with
  | nil =>
      intro p hp
      simp only [List.length_nil, pow_zero, Nat.lt_one_iff] at hp
      subst hp
      rfl
  | cons w rest ih =>
      intro p hp
      have hlenA : (generateBitPatterns rest N).length = 2 ^ rest.length :=
        generateBitPatterns_length rest N
      by_cases hsmall : p < 2 ^ rest.length
      · rw [show generateBitPatterns (w :: rest) N =
            generateBitPatterns rest N ++
              (generateBitPatterns rest N).map (· + 2 ^ (N - 1 - w)) from rfl]
        rw [List.getD_append _ _ _ _ (by rw [hlenA]; exact hsmall)]
        rw [ih p hsmall]
        rw [List.length_cons, Finset.sum_range_succ]
        rw [Nat.testBit_lt_two_pow hsmall]
        simp only [Bool.false_eq_true, if_false, add_zero]
        apply Finset.sum_congr rfl
        intro j hj
        have hj2 : j < rest.length := Finset.mem_range.mp hj
        have hidx : rest.length + 1 - 1 - j = (rest.length - 1 - j) + 1 := by omega
        rw [hidx, List.getD_cons_succ]
      · obtain ⟨q, rfl⟩ : ∃ q, p = 2 ^ rest.length + q :=
          ⟨p - 2 ^ rest.length, by omega⟩
        have hq : q < 2 ^ rest.length := by
          rw [List.length_cons] at hp
          have h2 : 2 ^ (rest.length + 1) = 2 ^ rest.length + 2 ^ rest.length := by
            ring
          omega
        rw [show generateBitPatterns (w :: rest) N =
            generateBitPatterns rest N ++
              (generateBitPatterns rest N).map (· + 2 ^ (N - 1 - w)) from rfl]
        rw [List.getD_append_right _ _ _ _ (by omega)]
        rw [hlenA, Nat.add_sub_cancel_left]
        have hqlen : q < ((generateBitPatterns rest N).map
            (· + 2 ^ (N - 1 - w))).length := by
          rw [List.length_map, hlenA]; exact hq
        rw [List.getD_eq_getElem _ _ hqlen, List.getElem_map]
        rw [← List.getD_eq_getElem _ 0 (by rw [hlenA]; exact hq)]
        rw [ih _ hq]
        rw [List.length_cons, Finset.sum_range_succ]
        have hbit : Nat.testBit (2 ^ rest.length + q) rest.length = true := by
          rw [Nat.testBit_two_pow_add_eq, Nat.testBit_lt_two_pow hq]
          rfl
        rw [hbit]
        simp only [if_true]
        have hgetw : (w :: rest).getD (rest.length + 1 - 1 - rest.length) 0 = w := by
          have h0 : rest.length + 1 - 1 - rest.length = 0 := by omega
          rw [h0, List.getD_cons_zero]
        rw [hgetw]
        congr 1
        apply Finset.sum_congr rfl
        intro j hj
        have hj2 : j < rest.length := Finset.mem_range.mp hj
        have hidx : rest.length + 1 - 1 - j = (rest.length - 1 - j) + 1 := by omega
        rw [Nat.testBit_two_pow_add_gt hj2, hidx, List.getD_cons_succ]

/-- Claim C3: generateBitPatterns(wires, N) has length 2 to the number of
wires, its p-th element is the sum over j of bit j of p times
2 to the (N - 1 - wires[k-1-j]), wires being consumed last to first as bits
go least to most significant, and the three worked examples of the spec
hold. -/
theorem bitPatternFormula (wires : List ℕ) (N : ℕ) (hw : ∀ w ∈ wires, w < N) :
    (generateBitPatterns wires N).length = 2 ^ wires.length ∧
    (∀ p, p < 2 ^ wires.length →
      (generateBitPatterns wires N).getD p 0 =
        ∑ j ∈ Finset.range wires.length,
          if Nat.testBit p j then 2 ^ (N - 1 - wires.getD (wires.length - 1 - j) 0)
          else 0) ∧
    generateBitPatterns [0, 1] 5 = [0, 8, 16, 24] ∧
    generateBitPatterns [1, 0] 5 = [0, 16, 8, 24] ∧
    generateBitPatterns [2] 5 = [0, 4] :=
  ⟨generateBitPatterns_length wires N, generateBitPatterns_getD N wires,
    by decide, by decide, by decide⟩

theorem bitPatternFormula_witness :
    (∀ w ∈ ([0, 2] : List ℕ), w < 3) ∧
      (generateBitPatterns [0, 2] 3).length = 2 ^ 2 ∧
      (generateBitPatterns [0, 2] 3).getD 1 0 = 1 ∧
      (generateBitPatterns [0, 2] 3).getD 2 0 = 4 := by
  refine ⟨by decide, ?_, ?_, ?_⟩
  · exact (bitPatternFormula [0, 2] 3 (by decide)).1
  · rw [(bitPatternFormula [0, 2] 3 (by decide)).2.1 1 (by decide)]
    decide
  · rw [(bitPatternFormula [0, 2] 3 (by decide)).2.1 2 (by decide)]
    decide

theorem generateBitPatterns_eq_patterns (wires : List ℕ) (N : ℕ) :
    generateBitPatterns wires N = patterns (wires.map (fun w => N - 1 - w)) := by
  induction wires with
  | nil => rfl
  | cons w rest ih =>
      simp only [generateBitPatterns, List.map_cons, patterns, ih]

open List in
theorem perm_middle_swap {α : Type _} (X Y A B : List α) :
    (X ++ Y ++ (A ++ B)).Perm (X ++ A ++ (Y ++ B)) := by
  simp only [List.append_assoc]
  refine List.Perm.append_left X ?_
  calc Y ++ (A ++ B) = Y ++ A ++ B := by rw [List.append_assoc]
    _ ~ A ++ Y ++ B := (List.perm_append_comm).append_right B
    _ = A ++ (Y ++ B) := by rw [List.append_assoc]

open List in
theorem flatMap_append_perm {α β : Type _} (l : List α) (f g : α → List β) :
    (l.flatMap (fun a => f a ++ g a)).Perm (l.flatMap f ++ l.flatMap g) := by
  induction l with
  | nil => rfl
  | cons a t ih =>
      simp only [List.flatMap_cons]
      calc f a ++ g a ++ t.flatMap (fun a => f a ++ g a)
          ~ f a ++ g a ++ (t.flatMap f ++ t.flatMap g) := List.Perm.append_left _ ih
        _ ~ f a ++ t.flatMap f ++ (g a ++ t.flatMap g) := perm_middle_swap _ _ _ _

open List in
theorem flatMap_patterns_perm (es2 es1 : List ℕ) :
    ((patterns es2).flatMap
        (fun c => (patterns es1).map (fun kk => c + kk))).Perm
      (patterns (es1 ++ es2)) := by
  induction es1 with
  | nil =>
      simp only [patterns, List.map_cons, List.map_nil, List.nil_append, add_zero]
      rw [List.flatMap_singleton']
  | cons e rest ih =>
      have h1 : ∀ c : ℕ, (patterns (e :: rest)).map (fun kk => c + kk) =
          (patterns rest).map (fun kk => c + kk) ++
            ((patterns rest).map (fun kk => c + kk)).map (· + 2 ^ e) := by
        intro c
        simp only [patterns, List.map_append, List.map_map]
        congr 1
        apply List.map_congr_left
        intro a _
        simp only [Function.comp]
        omega
      calc (patterns es2).flatMap (fun c => (patterns (e :: rest)).map (fun kk => c + kk))
          = (patterns es2).flatMap (fun c =>
              (patterns rest).map (fun kk => c + kk) ++
                ((patterns rest).map (fun kk => c + kk)).map (· + 2 ^ e)) := by
            simp only [h1]
        _ ~ (patterns es2).flatMap (fun c => (patterns rest).map (fun kk => c + kk)) ++
              (patterns es2).flatMap (fun c =>
                ((patterns rest).map (fun kk => c + kk)).map (· + 2 ^ e)) :=
            flatMap_append_perm _ _ _
        _ = (patterns es2).flatMap (fun c => (patterns rest).map (fun kk => c + kk)) ++
              ((patterns es2).flatMap
                (fun c => (patterns rest).map (fun kk => c + kk))).map (· + 2 ^ e) := by
            rw [List.map_flatMap]
        _ ~ patterns (rest ++ es2) ++ (patterns (rest ++ es2)).map (· + 2 ^ e) :=
            ih.append (ih.map _)
        _ = patterns ((e :: rest) ++ es2) := rfl

theorem patterns_perm {es1 es2 : List ℕ} (h : es1.Perm es2) :
    (patterns es1).Perm (patterns es2) := by
  induction h with
  | nil => rfl
  | cons e _ ih =>
      simp only [patterns]
      exact ih.append (ih.map _)
  | swap x y l =>
      simp only [patterns, List.map_append, List.map_map]
      have hc : ((fun kk => kk + 2 ^ x) ∘ fun kk => kk + 2 ^ y) =
          ((fun kk => kk + 2 ^ y) ∘ fun kk => kk + 2 ^ x) := by
        funext a
        simp only [Function.comp]
        omega
      rw [hc]
      exact perm_middle_swap _ _ _ _
  | trans _ _ ih1 ih2 => exact ih1.trans ih2

theorem map_sub_range (N : ℕ) :
    (List.range N).map (fun w => N - 1 - w) = (List.range N).reverse := by
  induction N with
  | zero => rfl
  | succ n ih =>
      conv_lhs => rw [List.range_succ_eq_map]
      rw [List.map_cons, List.map_map]
      have hf : ((fun w => n + 1 - 1 - w) ∘ Nat.succ) = fun w => n - 1 - w := by
        funext w
        simp only [Function.comp]
        omega
      rw [hf, ih]
      have h0 : n + 1 - 1 - 0 = n := by omega
      rw [h0]
      conv_rhs => rw [List.range_succ]
      rw [List.reverse_append, List.reverse_cons, List.reverse_nil,
        List.nil_append, List.singleton_append]

theorem patterns_reverse_range (N : ℕ) :
    patterns ((List.range N).reverse) = List.range (2 ^ N) := by
  induction N with
  | zero => rfl
  | succ n ih =>
      rw [List.range_succ, List.reverse_append, List.reverse_cons,
        List.reverse_nil, List.nil_append, List.singleton_append]
      rw [show patterns (n :: (List.range n).reverse) =
          patterns ((List.range n).reverse) ++
            (patterns ((List.range n).reverse)).map (· + 2 ^ n) from rfl]
      rw [ih, show (2:ℕ) ^ (n + 1) = 2 ^ n + 2 ^ n by ring, List.range_add]
      congr 1
      apply List.map_congr_left
      intro a _
      omega

theorem wires_complement_perm (wires : List ℕ) (N : ℕ) (hnd : wires.Nodup)
    (hlt : ∀ w ∈ wires, w < N) :
    (wires ++ getIndicesExcluding wires N).Perm (List.range N) := by
  rw [List.perm_iff_count]
  intro x
  rw [List.count_append, getIndicesExcluding]
  by_cases hx : x ∈ wires
  · have h1 : wires.count x = 1 := List.count_eq_one_of_mem hnd hx
    have h2 : ((List.range N).filter (fun i => decide (i ∉ wires))).count x = 0 := by
      apply List.count_eq_zero_of_not_mem
      intro hmem
      have := (List.mem_filter.mp hmem).2
      simp only [decide_eq_true_eq] at this
      exact this hx
    have h3 : (List.range N).count x = 1 :=
      List.count_eq_one_of_mem (List.nodup_range N) (List.mem_range.mpr (hlt x hx))
    omega
  · have h1 : wires.count x = 0 := List.count_eq_zero_of_not_mem hx
    have h2 : ((List.range N).filter (fun i => decide (i ∉ wires))).count x =
        (List.range N).count x := List.count_filter (by simpa using hx)
    omega

/-- Claim C2: for distinct wires below N, with K the kernel offsets of the
wires and C the kernel offsets of the excluded wires, the list of all sums
c + K[i] for c in C is a permutation of 0, 1, ..., 2^N - 1: every state
index is covered exactly once. -/
theorem indexDecomposition (wires : List ℕ) (N : ℕ) (hnd : wires.Nodup)
    (hlt : ∀ w ∈ wires, w < N) :
    ((generateBitPatterns (getIndicesExcluding wires N) N).flatMap
        (fun c => (generateBitPatterns wires N).map (fun kk => c + kk))).Perm
      (List.range (2 ^ N)) := by
  rw [generateBitPatterns_eq_patterns, generateBitPatterns_eq_patterns]
  refine (flatMap_patterns_perm _ _).trans ?_
  have hperm := (wires_complement_perm wires N hnd hlt).map (fun w => N - 1 - w)
  rw [map_sub_range, List.map_append] at hperm
  refine (patterns_perm hperm).trans ?_
  rw [patterns_reverse_range]

theorem indexDecomposition_witness :
    (([0, 2] : List ℕ)).Nodup ∧ (∀ w ∈ ([0, 2] : List ℕ), w < 3) ∧
      ((generateBitPatterns (getIndicesExcluding [0, 2] 3) 3).flatMap
          (fun c => (generateBitPatterns [0, 2] 3).map (fun kk => c + kk))).Perm
        (List.range (2 ^ 3)) :=
  ⟨by decide, by decide, indexDecomposition [0, 2] 3 (by decide) (by decide)⟩

theorem createGate_ok {k : GateKind} {ps : List ℝ} (h : ps.length = requiredParams k) :
    createGate k ps = .ok (buildGate k ps) := by
  simp [createGate, validateLength, h]

theorem createGate_err {k : GateKind} {ps : List ℝ} (h : ps.length ≠ requiredParams k) :
    createGate k ps =
      .error (.BadParameterCount (labelOf k) (requiredParams k) ps.length) := by
  simp [createGate, validateLength, h]

/-- Claim C5: for every catalogued gate, create fails with BadParameterCount
exactly when the parameter-list length differs from the gate's declared
count; zero-parameter gates accept exactly the empty list, and on success
the returned instance is the one precomputed by the class constructor. -/
theorem createValidation (k : GateKind) (ps : List ℝ) :
    ((∃ g, createGate k ps = .ok g) ↔ ps.length = requiredParams k) ∧
    (ps.length ≠ requiredParams k →
      createGate k ps =
        .error (.BadParameterCount (labelOf k) (requiredParams k) ps.length)) ∧
    (ps.length = requiredParams k → createGate k ps = .ok (buildGate k ps)) ∧
    (requiredParams k = 0 → ((∃ g, createGate k ps = .ok g) ↔ ps = [])) := by
  by_cases h : ps.length = requiredParams k
  · have hok : createGate k ps = .ok (buildGate k ps) := createGate_ok h
    refine ⟨⟨fun _ => h, fun _ => ⟨_, hok⟩⟩, fun hne => absurd h hne,
      fun _ => hok, ?_⟩
    intro h0
    constructor
    · intro _
      cases ps with
      | nil => rfl
      | cons a t =>
          rw [h0] at h
          simp at h
    · intro _
      exact ⟨_, hok⟩
  · have herr : createGate k ps =
        .error (.BadParameterCount (labelOf k) (requiredParams k) ps.length) :=
      createGate_err h
    refine ⟨⟨?_, fun hl => absurd hl h⟩, fun _ => herr, fun hl => absurd hl h, ?_⟩
    · rintro ⟨g, hg⟩
      rw [herr] at hg
      cases hg
    · intro h0
      constructor
      · rintro ⟨g, hg⟩
        rw [herr] at hg
        cases hg
      · intro hnil
        subst hnil
        rw [h0] at h
        simp at h

theorem createValidation_witness :
    createGate GateKind.RX [] =
      .error (.BadParameterCount (labelOf GateKind.RX) (requiredParams GateKind.RX)
        (([] : List ℝ)).length) :=
  (createValidation GateKind.RX []).2.1 (by decide)

theorem lookup_isSome_iff_mem {t : List (String × GateKind)} {label : String} :
    (List.lookup label t).isSome ↔ label ∈ t.map Prod.fst := by
  induction t with
  | nil => simp [List.lookup]
  | cons p rest ih =>
      obtain ⟨a, k⟩ := p
      by_cases h : label = a
      · subst h
        simp [List.lookup]
      · have hbeq : (label == a) = false := by
          simp [h]
        simp [List.lookup, hbeq, h, ih]

/-- Claim C6: constructGate succeeds exactly when the label is one of the
twenty catalogued labels, compared case-sensitively, and the parameter list
has the length the resolved gate requires; any other label fails with
UnknownGate. -/
theorem dispatchResolution (label : String) (ps : List ℝ) :
    ((∃ g, constructGate label ps = .ok g) ↔
        (∃ k, List.lookup label dispatchTable = some k ∧
          ps.length = requiredParams k)) ∧
    (label ∉ catalogueLabels →
      constructGate label ps = .error (.UnknownGate label)) ∧
    (label ∈ catalogueLabels ↔ (List.lookup label dispatchTable).isSome) := by
  have hkeys : dispatchTable.map Prod.fst = catalogueLabels := by rfl
  have hmem : label ∈ catalogueLabels ↔ (List.lookup label dispatchTable).isSome := by
    rw [← hkeys]
    exact lookup_isSome_iff_mem.symm
  refine ⟨?_, ?_, hmem⟩
  · cases hl : List.lookup label dispatchTable with
    | none =>
        simp only [constructGate, hl]
        constructor
        · rintro ⟨g, hg⟩
          cases hg
        · rintro ⟨k2, hk2, -⟩
          cases hk2
    | some k =>
        simp only [constructGate, hl]
        constructor
        · rintro ⟨g, hg⟩
          refine ⟨k, rfl, ?_⟩
          by_contra hne
          rw [createGate_err hne] at hg
          cases hg
        · rintro ⟨k2, hk2, hlen⟩
          rw [Option.some_inj] at hk2
          subst hk2
          exact ⟨_, createGate_ok hlen⟩
  · intro hnot
    have hnone : List.lookup label dispatchTable = none := by
      rcases hsome : List.lookup label dispatchTable with _ | k
      · rfl
      · exact absurd (hmem.mpr (by rw [hsome]; rfl)) hnot
    simp only [constructGate, hnone]

theorem dispatchResolution_witness :
    (("paulix") ∉ catalogueLabels) ∧
      constructGate ("paulix") [] = .error (.UnknownGate ("paulix")) :=
  ⟨by decide, (dispatchResolution ("paulix") []).2.1 (by decide)⟩

/-- Claim C8: when an apply call fails validation on some operation, the call
aborts with the state buffer equal to the result of applying exactly the
operations strictly preceding the failing one; the failing operation and all
later ones leave no mutation. -/
theorem abortPrefixSemantics (qubits : ℕ) (pre post : List Operation)
    (op : Operation) (e : GateError) (st : QState)
    (hpre : ∀ o ∈ pre, ∃ g, validateOp qubits o = .ok g)
    (hop : validateOp qubits op = .error e) :
    applySequence qubits (pre ++ op :: post) st =
      (applyValidOps qubits pre st, some e) := by
  induction pre generalizing st with
  | nil =>
      simp only [List.nil_append, applySequence, hop, applyValidOps, List.foldl_nil]
  | cons o rest ih =>
      obtain ⟨g, hg⟩ := hpre o (List.mem_cons_self o rest)
      simp only [List.cons_append, applySequence, hg, applyValidOps, List.foldl_cons,
        List.append_eq]
      rw [ih _ (fun (o2 : Operation) ho2 => hpre o2 (List.mem_cons_of_mem o ho2))]
      simp only [applyValidOps]

theorem abortPrefixSemantics_witness :
    (∀ o ∈ [Operation.mk ("PauliX") [0] []],
        ∃ g, validateOp 1 o = .ok g) ∧
      validateOp 1 (Operation.mk ("PauliX") [0, 1] []) =
        .error (.BadWireCount 1 2) ∧
      applySequence 1
          ([Operation.mk ("PauliX") [0] []] ++
            Operation.mk ("PauliX") [0, 1] [] :: []) sampleState =
        (applyValidOps 1 [Operation.mk ("PauliX") [0] []] sampleState,
          some (.BadWireCount 1 2)) := by
  refine ⟨?_, ?_, ?_⟩
  · intro o ho
    rw [List.mem_singleton] at ho
    subst ho
    exact ⟨PGate.XGate, rfl⟩
  · rfl
  · exact abortPrefixSemantics 1 [Operation.mk ("PauliX") [0] []] []
      (Operation.mk ("PauliX") [0, 1] []) (.BadWireCount 1 2) sampleState
      (fun o ho => by
        rw [List.mem_singleton] at ho
        subst ho
        exact ⟨PGate.XGate, rfl⟩)
      rfl

theorem matrixLength (g : PGate) :
    (asMatrix g).length = 2 ^ arity g * 2 ^ arity g := by
  cases g <;> rfl

theorem gatherChecked_ok (stateLen : ℕ) (s : QState) :
    ∀ (indices : List ℕ) (pos : ℕ) (v : List ℂ),
      (∀ i ∈ indices, i < stateLen) → pos + indices.length ≤ v.length →
      ∃ v2, gatherChecked stateLen s indices pos v = some v2 := by
  intro indices
  induction indices with
  | nil =>
      intro pos v _ _
      exact ⟨v, rfl⟩
  | cons index rest ih =>
      intro pos v hidx hlen
      have h1 : index < stateLen := hidx index (List.mem_cons_self _ _)
      have hlc : (index :: rest).length = rest.length + 1 := rfl
      have h2 : pos < v.length := by
        rw [hlc] at hlen
        omega
      rw [gatherChecked, if_pos ⟨h1, h2⟩]
      refine ih (pos + 1) _ (fun i hi => hidx i (List.mem_cons_of_mem _ hi)) ?_
      rw [List.length_set]
      rw [hlc] at hlen
      omega

theorem gatherChecked_length (stateLen : ℕ) (s : QState) :
    ∀ (indices : List ℕ) (pos : ℕ) (v v2 : List ℂ),
      gatherChecked stateLen s indices pos v = some v2 → v2.length = v.length := by
  intro indices
  induction indices with
  | nil =>
      intro pos v v2 h
      rw [gatherChecked, Option.some_inj] at h
      rw [← h]
  | cons index rest ih =>
      intro pos v v2 h
      rw [gatherChecked] at h
      by_cases hc : index < stateLen ∧ pos < v.length
      · rw [if_pos hc] at h
        have h2 := ih (pos + 1) _ _ h
        rw [List.length_set] at h2
        exact h2
      · rw [if_neg hc] at h
        cases h

theorem accumChecked_ok (matrix v : List ℂ) (base : ℕ) :
    ∀ (js : List ℕ) (acc : ℂ),
      (∀ j ∈ js, base + j < matrix.length ∧ j < v.length) →
      ∃ z, accumChecked matrix v base js acc = some z := by
  intro js
  induction js with
  | nil =>
      intro acc _
      exact ⟨acc, rfl⟩
  | cons j rest ih =>
      intro acc hb
      rw [accumChecked, if_pos (hb j (List.mem_cons_self _ _))]
      exact ih _ (fun j2 hj2 => hb j2 (List.mem_cons_of_mem _ hj2))

theorem scatterChecked_ok (matrix : List ℂ) (stateLen : ℕ) (indices : List ℕ)
    (v : List ℂ) (hmat : matrix.length = indices.length * indices.length)
    (hv : indices.length ≤ v.length)
    (hidx : ∀ i ∈ indices, i < stateLen) :
    ∀ (loopIs : List ℕ), (∀ i ∈ loopIs, i < indices.length) → ∀ st,
      ∃ st2, scatterChecked matrix stateLen indices v st loopIs = some st2 := by
  intro loopIs
  induction loopIs with
  | nil =>
      intro _ st
      exact ⟨st, rfl⟩
  | cons i rest ih =>
      intro hmem st
      have hi : i < indices.length := hmem i (List.mem_cons_self _ _)
      have hin : indices.getD i 0 < stateLen := hidx _ (getD_mem_of_lt hi)
      have hacc : ∀ j ∈ List.range indices.length,
          i * indices.length + j < matrix.length ∧ j < v.length := by
        intro j hj
        have hj2 : j < indices.length := List.mem_range.mp hj
        constructor
        · rw [hmat]
          calc i * indices.length + j < i * indices.length + indices.length := by omega
            _ = (i + 1) * indices.length := by ring
            _ ≤ indices.length * indices.length :=
                Nat.mul_le_mul_right _ (by omega)
        · omega
      obtain ⟨z, hz⟩ := accumChecked_ok matrix v (i * indices.length)
        (List.range indices.length) 0 hacc
      rw [scatterChecked]
      simp only [if_pos hin, hz]
      exact ih (fun i2 hi2 => hmem i2 (List.mem_cons_of_mem _ hi2)) _

/-- Claim C10: with an index tuple and scratch vector both of length 2 to the
gate arity and every index a valid state position, the assertion of
AbstractGate::applyKernel holds and every state, scratch and matrix access of
the gather and scatter loops stays in bounds, so the checked kernel succeeds. -/
theorem checkedKernelSafe (g : PGate) (stateLen : ℕ) (s : QState)
    (indices : List ℕ) (v : List ℂ)
    (hlen : indices.length = 2 ^ arity g) (hv : v.length = 2 ^ arity g)
    (hidx : ∀ i ∈ indices, i < stateLen) :
    ∃ st2, applyKernelChecked (asMatrix g) (2 ^ arity g) stateLen s indices v =
      some st2 := by
  rw [applyKernelChecked, if_pos ⟨hlen, hv⟩]
  obtain ⟨v2, hv2⟩ := gatherChecked_ok stateLen s indices 0 v hidx (by omega)
  rw [hv2]
  have hlenv2 : v2.length = v.length := gatherChecked_length stateLen s indices 0 v v2 hv2
  exact scatterChecked_ok (asMatrix g) stateLen indices v2
    (by rw [matrixLength, hlen]) (by omega) hidx
    (List.range indices.length) (fun i hi => List.mem_range.mp hi) s

theorem checkedKernelSafe_witness :
    (([0, 1] : List ℕ)).length = 2 ^ arity PGate.XGate ∧
      (([(0 : ℂ), 0] : List ℂ)).length = 2 ^ arity PGate.XGate ∧
      (∀ i ∈ ([0, 1] : List ℕ), i < 2) ∧
      ∃ st2, applyKernelChecked (asMatrix PGate.XGate) (2 ^ arity PGate.XGate) 2
        sampleState [0, 1] [(0 : ℂ), 0] = some st2 :=
  ⟨by decide, by decide, by decide,
    checkedKernelSafe PGate.XGate 2 sampleState [0, 1] [(0 : ℂ), 0]
      (by decide) (by decide) (by decide)⟩
